import Mathlib

/-!
Verification development for the unigma secure file-sharing service.

The Go sources are shallowly embedded: byte slices become `List Nat`
(each entry a byte value below 256), the SQLite `storage` table becomes a
`List Item`, the storage directory becomes an association list from file
paths to file contents, and the opaque cryptographic library primitives
(PBKDF2, SHAKE-256, the AES block function) become fields of a `Crypto`
parameter structure, since the repository consumes them as external
black boxes and relies only on their interface contracts.
Randomness (`crypto/rand`) is modelled by an explicit byte-source
function threaded into the operations that draw random bytes.
-/

namespace Unigma

/-- Byte source: `rand.Read` filling `n` bytes, drawn from the stream
`rand` starting at offset `k`; entries are reduced mod 256 because the
source produces bytes. -/
def randBytes (rand : Nat → Nat) (k n : Nat) : List Nat :=
  (List.range n).map (fun i => rand (k + i) % 256)

theorem randBytes_length (rand : Nat → Nat) (k n : Nat) :
    (randBytes rand k n).length = n := by
  simp [randBytes]

theorem randBytes_lt (rand : Nat → Nat) (k n : Nat) :
    ∀ b ∈ randBytes rand k n, b < 256 := by
  intro b hb
  simp only [randBytes, List.mem_map] at hb
  obtain ⟨i, _, hi⟩ := hb
  omega

/-- Hex digit of a value below 16, lowercase (as in `encoding/hex`). -/
def hexDigit (n : Nat) : Nat :=
  if n < 10 then 48 + n else 87 + n

/-- Model of `hex.EncodeToString` on a byte list (result is the list of
ASCII codes of the lowercase hex text). -/
def hexEncode : List Nat → List Nat
  | [] => []
  | b :: rest => hexDigit (b / 16) :: hexDigit (b % 16) :: hexEncode rest

/-- Value of one hex character; `encoding/hex` accepts both cases. -/
def hexVal (c : Nat) : Option Nat :=
  if 48 ≤ c ∧ c ≤ 57 then some (c - 48)
  else if 97 ≤ c ∧ c ≤ 102 then some (c - 87)
  else if 65 ≤ c ∧ c ≤ 70 then some (c - 55)
  else none

/-- Model of `hex.DecodeString`; fails on odd length or a non-hex char. -/
def hexDecode : List Nat → Option (List Nat)
  | [] => some []
  | [_] => none
  | c1 :: c2 :: rest =>
    match hexVal c1, hexVal c2, hexDecode rest with
    | some hi, some lo, some bs => some ((hi * 16 + lo) :: bs)
    | _, _, _ => none

theorem hexVal_hexDigit (n : Nat) (h : n < 16) : hexVal (hexDigit n) = some n := by
  unfold hexVal hexDigit
  split
  · rw [if_pos (by omega)]
    congr 1
    omega
  · rw [if_neg (by omega), if_pos (by omega)]
    congr 1
    omega

theorem hexDecode_hexEncode (l : List Nat) (h : ∀ b ∈ l, b < 256) :
    hexDecode (hexEncode l) = some l := by
  induction l with
  | nil => rfl
  | cons b rest ih =>
    have hb : b < 256 := h b (by simp)
    have h1 : hexVal (hexDigit (b / 16)) = some (b / 16) :=
      hexVal_hexDigit _ (by omega)
    have h2 : hexVal (hexDigit (b % 16)) = some (b % 16) :=
      hexVal_hexDigit _ (by omega)
    have h3 : hexDecode (hexEncode rest) = some rest :=
      ih (fun x hx => h x (by simp [hx]))
    simp only [hexEncode, hexDecode, h1, h2, h3]
    have : b / 16 * 16 + b % 16 = b := by omega
    simp [this]

theorem hexEncode_length (l : List Nat) : (hexEncode l).length = 2 * l.length := by
  induction l with
  | nil => rfl
  | cons b rest ih => simp [hexEncode, ih]; omega

/-- Pointwise xor of two byte lists (`XORKeyStream`); truncates to the
shorter operand, as `zipWith` does. -/
theorem zipWith_xor_cancel :
    ∀ (l k : List Nat), l.length ≤ k.length →
      List.zipWith Nat.xor (List.zipWith Nat.xor l k) k = l := by
  intro l
  induction l with
  | nil => intro k _; simp
  | cons a l ih =>
    intro k hk
    cases k with
    | nil => simp at hk
    | cons b k =>
      simp only [List.zipWith_cons_cons, List.cons.injEq]
      refine ⟨?_, ih k (by simpa using hk)⟩
      show a ^^^ b ^^^ b = a
      rw [Nat.xor_assoc, Nat.xor_self, Nat.xor_zero]

theorem mem_zipWith_xor_lt :
    ∀ (l k : List Nat), (∀ a ∈ l, a < 256) → (∀ b ∈ k, b < 256) →
      ∀ x ∈ List.zipWith Nat.xor l k, x < 256 := by
  intro l
  induction l with
  | nil => intro k _ _ x hx; simp at hx
  | cons a l ih =>
    intro k hl hk x hx
    cases k with
    | nil => simp at hx
    | cons b k =>
      simp only [List.zipWith_cons_cons, List.mem_cons] at hx
      rcases hx with hx | hx
      · subst hx
        have ha : a < 2 ^ 8 := hl a (by simp)
        have hb : b < 2 ^ 8 := hk b (by simp)
        calc a ^^^ b < 2 ^ 8 := Nat.xor_lt_two_pow ha hb
          _ = 256 := by norm_num
      · exact ih k (fun y hy => hl y (by simp [hy]))
          (fun y hy => hk y (by simp [hy])) x hx

/-- AES block size (`aes.BlockSize`). -/
def aesBlockSize : Nat := 16

/-- Split a byte list into consecutive blocks of at most 16 bytes, the
granularity at which the Go stream-cipher wrappers consume data. -/
def chunksB (l : List Nat) : List (List Nat) :=
  if l.isEmpty then [] else l.take 16 :: chunksB (l.drop 16)
termination_by l.length
decreasing_by
  rename_i h
  simp only [List.isEmpty_iff] at h
  have : 0 < l.length := List.length_pos.mpr h
  simp only [List.length_drop]
  omega

theorem chunksB_nil : chunksB [] = [] := by
  rw [chunksB]
  rfl

theorem chunksB_cons (l : List Nat) (h : ¬l.isEmpty) :
    chunksB l = l.take 16 :: chunksB (l.drop 16) := by
  rw [chunksB, if_neg h]

theorem chunksB_join (l : List Nat) : (chunksB l).flatten = l := by
  induction l using chunksB.induct with
  | case1 l h => rw [List.isEmpty_iff] at h; simp [h, chunksB_nil]
  | case2 l h ih =>
    rw [chunksB_cons l (by simp [h])]
    simp [ih]

theorem chunksB_mem_le (l : List Nat) : ∀ c ∈ chunksB l, c.length ≤ 16 := by
  induction l using chunksB.induct with
  | case1 l h => rw [List.isEmpty_iff] at h; simp [h, chunksB_nil]
  | case2 l h ih =>
    rw [chunksB_cons l (by simp [h])]
    intro c hc
    rcases List.mem_cons.mp hc with hc | hc
    · subst hc; simp
    · exact ih c hc

theorem chunksB_mem_subset (l : List Nat) : ∀ c ∈ chunksB l, ∀ x ∈ c, x ∈ l := by
  induction l using chunksB.induct with
  | case1 l h => rw [List.isEmpty_iff] at h; simp [h, chunksB_nil]
  | case2 l h ih =>
    rw [chunksB_cons l (by simp [h])]
    intro c hc x hx
    rcases List.mem_cons.mp hc with hc | hc
    · subst hc; exact List.mem_of_mem_take hx
    · exact List.mem_of_mem_drop (ih c hc x hx)

/-- Shape of a chunk list produced by `chunksB`: all blocks full except a
nonempty final partial block. -/
def goodChunks : List (List Nat) → Prop
  | [] => True
  | [c] => 0 < c.length ∧ c.length ≤ 16
  | c :: rest => c.length = 16 ∧ goodChunks rest

theorem goodChunks_chunksB (l : List Nat) : goodChunks (chunksB l) := by
  induction l using chunksB.induct with
  | case1 l h => rw [List.isEmpty_iff] at h; simp [h, chunksB_nil, goodChunks]
  | case2 l h ih =>
    rw [chunksB_cons l (by simp [h])]
    have hne0 : l ≠ [] := by simpa [List.isEmpty_iff] using h
    have hlen : 0 < l.length := List.length_pos.mpr hne0
    by_cases h16 : l.length ≤ 16
    · have : l.drop 16 = [] := by
        apply List.eq_nil_of_length_eq_zero
        simp [List.length_drop]
        omega
      rw [this, chunksB_nil]
      simp [goodChunks, List.length_take]
      omega
    · have hne : ¬(l.drop 16).isEmpty := by
        simp [List.isEmpty_iff, ← List.length_pos, List.length_drop]
        omega
      rw [chunksB_cons _ hne]
      rw [chunksB_cons _ hne] at ih
      exact ⟨by simp [List.length_take]; omega, ih⟩

theorem chunksB_of_goodChunks :
    ∀ cs : List (List Nat), goodChunks cs → chunksB cs.flatten = cs := by
  intro cs
  induction cs with
  | nil => intro _; simp [chunksB_nil]
  | cons c rest ih =>
    intro hg
    cases rest with
    | nil =>
      obtain ⟨h1, h2⟩ := hg
      have hjoin : (([c] : List (List Nat))).flatten = c := by simp
      rw [hjoin, chunksB_cons c (by simp [List.isEmpty_iff, ← List.length_pos]; omega)]
      rw [List.take_of_length_le h2]
      have : c.drop 16 = [] := by
        apply List.eq_nil_of_length_eq_zero
        simp [List.length_drop]
        omega
      rw [this, chunksB_nil]
    | cons d rest2 =>
      obtain ⟨h1, h2⟩ := hg
      have hjoin : ((c :: d :: rest2 : List (List Nat))).flatten = c ++ (d :: rest2 : List (List Nat)).flatten := by
        simp
      rw [hjoin]
      have hcne : ¬(c ++ (d :: rest2 : List (List Nat)).flatten).isEmpty := by
        intro hEmp
        rw [List.isEmpty_iff, List.append_eq_nil] at hEmp
        rw [hEmp.1] at h1
        simp at h1
      rw [chunksB_cons _ hcne]
      rw [← h1, List.take_left, List.drop_left]
      rw [ih h2]

theorem goodChunks_of_length_eq :
    ∀ (cs ds : List (List Nat)), cs.map List.length = ds.map List.length →
      goodChunks cs → goodChunks ds := by
  intro cs
  induction cs with
  | nil =>
    intro ds h _
    cases ds with
    | nil => trivial
    | cons d ds2 => simp at h
  | cons c rest ih =>
    intro ds h hg
    cases ds with
    | nil => simp at h
    | cons d ds2 =>
      simp only [List.map_cons, List.cons.injEq] at h
      obtain ⟨hcd, hrest⟩ := h
      cases rest with
      | nil =>
        cases ds2 with
        | nil => obtain ⟨g1, g2⟩ := hg; exact ⟨by omega, by omega⟩
        | cons e es => simp at hrest
      | cons c2 rest2 =>
        cases ds2 with
        | nil => simp at hrest
        | cons e es =>
          obtain ⟨g1, g2⟩ := hg
          exact ⟨by omega, ih (e :: es) hrest g2⟩

/-- Opaque cryptographic library primitives the repository consumes
(`golang.org/x/crypto/pbkdf2`, `golang.org/x/crypto/sha3`, `crypto/aes`):
`pbkdf2 password salt iterations keyLen`, `shake256 outLen data`
(`sha3.ShakeSum256` into a buffer of length `outLen`), and the keyed AES
block encryption function. -/
structure Crypto where
  pbkdf2 : List Nat → List Nat → Nat → Nat → List Nat
  shake256 : Nat → List Nat → List Nat
  aesEnc : List Nat → List Nat → List Nat

/-- Constants from the db package: `saltSize`, `pbkdf2Iter`,
`aesKeyLength`, `hashLength`. -/
def saltSize : Nat := 128

def pbkdf2Iter : Nat := 32768

def aesKeyLength : Nat := 32

def hashLength : Nat := 32

/-- Model of `aes.NewCipher`: fails unless the key has a valid AES key
size (16, 24 or 32 bytes); on success yields the keyed block function. -/
def newCipher (c : Crypto) (key : List Nat) : Except String (List Nat → List Nat) :=
  if key.length = 16 ∨ key.length = 24 ∨ key.length = 32 then .ok (c.aesEnc key)
  else .error "crypto aes invalid key size"

/-- CFB encryption over a chunk list (`cipher.NewCFBEncrypter` followed by
`XORKeyStream`): each ciphertext block is the plaintext block xored with
the encryption of the running register, and becomes the next register. -/
def cfbEnc (E : List Nat → List Nat) (reg : List Nat) : List (List Nat) → List (List Nat)
  | [] => []
  | ch :: rest =>
    let c := List.zipWith Nat.xor ch (E reg)
    c :: cfbEnc E c rest

/-- CFB decryption over a chunk list (`cipher.NewCFBDecrypter`): the next
register is the ciphertext block just consumed. -/
def cfbDec (E : List Nat → List Nat) (reg : List Nat) : List (List Nat) → List (List Nat)
  | [] => []
  | ch :: rest => List.zipWith Nat.xor ch (E reg) :: cfbDec E ch rest

def cfbEncryptBytes (E : List Nat → List Nat) (iv plain : List Nat) : List Nat :=
  (cfbEnc E iv (chunksB plain)).flatten

def cfbDecryptBytes (E : List Nat → List Nat) (iv ct : List Nat) : List Nat :=
  (cfbDec E iv (chunksB ct)).flatten

theorem cfbDec_cfbEnc (E : List Nat → List Nat) (hE : ∀ b, (E b).length = 16) :
    ∀ (cs : List (List Nat)) (reg : List Nat), (∀ c ∈ cs, c.length ≤ 16) →
      cfbDec E reg (cfbEnc E reg cs) = cs := by
  intro cs
  induction cs with
  | nil => intro reg _; rfl
  | cons ch rest ih =>
    intro reg hle
    simp only [cfbEnc, cfbDec, List.cons.injEq]
    constructor
    · apply zipWith_xor_cancel
      rw [hE reg]
      exact hle ch (by simp)
    · exact ih _ (fun c hc => hle c (by simp [hc]))

theorem cfbEnc_length_map (E : List Nat → List Nat) (hE : ∀ b, (E b).length = 16) :
    ∀ (cs : List (List Nat)) (reg : List Nat), (∀ c ∈ cs, c.length ≤ 16) →
      (cfbEnc E reg cs).map List.length = cs.map List.length := by
  intro cs
  induction cs with
  | nil => intro reg _; rfl
  | cons ch rest ih =>
    intro reg hle
    simp only [cfbEnc, List.map_cons, List.cons.injEq]
    constructor
    · rw [List.length_zipWith, hE reg]
      have := hle ch (by simp)
      omega
    · exact ih _ (fun c hc => hle c (by simp [hc]))

theorem cfbDecryptBytes_cfbEncryptBytes (E : List Nat → List Nat)
    (hE : ∀ b, (E b).length = 16) (iv plain : List Nat) :
    cfbDecryptBytes E iv (cfbEncryptBytes E iv plain) = plain := by
  unfold cfbDecryptBytes cfbEncryptBytes
  have hgood : goodChunks (cfbEnc E iv (chunksB plain)) :=
    goodChunks_of_length_eq _ _
      (cfbEnc_length_map E hE _ iv (chunksB_mem_le plain)).symm
      (goodChunks_chunksB plain)
  rw [chunksB_of_goodChunks _ hgood]
  rw [cfbDec_cfbEnc E hE _ iv (chunksB_mem_le plain)]
  exact chunksB_join plain

theorem mem_cfbEncryptBytes_lt (E : List Nat → List Nat)
    (hEB : ∀ b, ∀ x ∈ E b, x < 256) (iv plain : List Nat)
    (hp : ∀ x ∈ plain, x < 256) :
    ∀ x ∈ cfbEncryptBytes E iv plain, x < 256 := by
  have key : ∀ (cs : List (List Nat)) (reg : List Nat),
      (∀ c ∈ cs, ∀ x ∈ c, x < 256) →
      ∀ x ∈ (cfbEnc E reg cs).flatten, x < 256 := by
    intro cs
    induction cs with
    | nil => intro reg _ x hx; simp [cfbEnc] at hx
    | cons ch rest ih =>
      intro reg hcs x hx
      simp only [cfbEnc, List.flatten_cons, List.mem_append] at hx
      rcases hx with hx | hx
      · exact mem_zipWith_xor_lt ch (E reg) (hcs ch (by simp)) (hEB reg) x hx
      · exact ih _ (fun c hc => hcs c (by simp [hc])) x hx
  intro x hx
  exact key (chunksB plain) iv
    (fun c hc y hy => hp y (chunksB_mem_subset plain c hc y hy)) x hx

/-- OFB keystream blocks: `o_1 = E(iv)`, `o_k+1 = E(o_k)`
(`cipher.NewOFB`). -/
def ofbBlocks (E : List Nat → List Nat) : List Nat → Nat → List (List Nat)
  | _, 0 => []
  | reg, n + 1 => E reg :: ofbBlocks E (E reg) n

def ofbKeystream (E : List Nat → List Nat) (iv : List Nat) (n : Nat) : List Nat :=
  ((ofbBlocks E iv (n / 16 + 1)).flatten).take n

/-- AES-OFB as used for the file body: xor the data with the keystream.
Encryption and decryption are the same operation. -/
def ofbCrypt (E : List Nat → List Nat) (iv data : List Nat) : List Nat :=
  List.zipWith Nat.xor data (ofbKeystream E iv data.length)

theorem ofbBlocks_flatten_length (E : List Nat → List Nat)
    (hE : ∀ b, (E b).length = 16) :
    ∀ (n : Nat) (reg : List Nat), ((ofbBlocks E reg n).flatten).length = 16 * n := by
  intro n
  induction n with
  | zero => intro reg; rfl
  | succ m ih =>
    intro reg
    simp only [ofbBlocks, List.flatten_cons, List.length_append, hE, ih]
    ring

theorem ofbKeystream_length (E : List Nat → List Nat)
    (hE : ∀ b, (E b).length = 16) (iv : List Nat) (n : Nat) :
    (ofbKeystream E iv n).length = n := by
  unfold ofbKeystream
  rw [List.length_take, ofbBlocks_flatten_length E hE]
  omega

theorem ofbCrypt_length (E : List Nat → List Nat)
    (hE : ∀ b, (E b).length = 16) (iv data : List Nat) :
    (ofbCrypt E iv data).length = data.length := by
  unfold ofbCrypt
  rw [List.length_zipWith, ofbKeystream_length E hE]
  omega

theorem ofbCrypt_ofbCrypt (E : List Nat → List Nat)
    (hE : ∀ b, (E b).length = 16) (iv data : List Nat) :
    ofbCrypt E iv (ofbCrypt E iv data) = data := by
  have hlen : (ofbCrypt E iv data).length = data.length := ofbCrypt_length E hE iv data
  unfold ofbCrypt
  rw [show (List.zipWith Nat.xor data (ofbKeystream E iv data.length)).length
      = data.length from hlen]
  apply zipWith_xor_cancel
  rw [ofbKeystream_length E hE]

/-- The `Item` struct of the db package. Go strings and byte slices are
byte lists; `id`, `counter` and the timestamps are integers (`updated`
exists in the table row and is set by the decrement). -/
structure Item where
  id : Int
  name : List Nat
  path : List Nat
  salt : List Nat
  hash : List Nat
  counter : Int
  created : Int
  updated : Int
  expired : Int
deriving DecidableEq, Repr

/-- The storage directory: an association list from file paths to file
contents. -/
abbrev Fs : Type := List (List Nat × List Nat)

def fsLookup (fs : Fs) (p : List Nat) : Option (List Nat) :=
  (List.find? (fun e => e.1 == p) fs).map (fun e => e.2)

def fsRemove (fs : Fs) (p : List Nat) : Fs :=
  List.filter (fun e => !(e.1 == p)) fs

/-- Model of `filepath.Join(item.Path, item.Hash)` for a nonempty
directory path: the path, a slash, and the hash. -/
def FullPath (item : Item) : List Nat :=
  item.path ++ (47 :: item.hash)

/-- `Key` from the db package: the PBKDF2 key (32768 iterations keyed on
SHA3-512, 32-byte output) and the 32-byte SHAKE-256 digest of
`key ++ salt`. -/
def Key (c : Crypto) (secret salt : List Nat) : List Nat × List Nat :=
  let key := c.pbkdf2 secret salt pbkdf2Iter aesKeyLength
  (key, c.shake256 hashLength (key ++ salt))

/-- `Item.encryptName`: refuses an empty name; swallows a cipher
construction failure by returning success with the name untouched
(the source returns `nil` in its `err != nil` branch); otherwise stores
the hex encoding of a fresh random IV followed by the CFB ciphertext. -/
def encryptName (c : Crypto) (rand : Nat → Nat) (key : List Nat) (item : Item) :
    Except String Item :=
  if item.name = [] then .error "encrypt empty name"
  else
    match newCipher c key with
    | .error _ => .ok item
    | .ok E =>
      let iv := randBytes rand 0 aesBlockSize
      let ct := cfbEncryptBytes E iv item.name
      .ok { item with name := hexEncode (iv ++ ct) }

/-- `Item.decryptName`: hex-decode the stored name, split the leading IV,
CFB-decrypt the remainder. -/
def decryptName (c : Crypto) (key : List Nat) (item : Item) : Except String Item :=
  if item.name = [] then .error "decrypt empty name"
  else
    match hexDecode item.name with
    | none => .error "hex decode"
    | some ct =>
      if ct.length < aesBlockSize then .error "invalid cipher block length"
      else
        match newCipher c key with
        | .error _ => .error "new cipher creation"
        | .ok E =>
          .ok { item with
                name := cfbDecryptBytes E (ct.take aesBlockSize) (ct.drop aesBlockSize) }

def zeroIV : List Nat := List.replicate aesBlockSize 0

/-- `Item.Encrypt`: draw a 128-byte salt, derive the key pair, encrypt the
name, store the hex of the verification hash as the public hash, refuse to
overwrite an existing file, store the hex salt, and stream the content
through AES-OFB with a zero IV into the file at `FullPath`. The byte
source supplies first the salt, then the name IV. -/
def Encrypt (c : Crypto) (rand : Nat → Nat) (fs : Fs) (item : Item)
    (content secret : List Nat) : Except String (Item × Fs) :=
  let salt := randBytes rand 0 saltSize
  let kp := Key c secret salt
  match encryptName c (fun i => rand (saltSize + i)) kp.1 item with
  | .error e => .error e
  | .ok item1 =>
    let item2 := { item1 with hash := hexEncode kp.2 }
    if (fsLookup fs (FullPath item2)).isSome then .error "file already exists"
    else
      let item3 := { item2 with salt := hexEncode salt }
      match newCipher c kp.1 with
      | .error e => .error e
      | .ok E =>
        .ok (item3, (FullPath item2, ofbCrypt E zeroIV content) :: fs)

/-- `Item.Decrypt`: decrypt the name with the given key, open the file at
`FullPath`, and stream it through AES-OFB with a zero IV to the output. -/
def Decrypt (c : Crypto) (key : List Nat) (fs : Fs) (item : Item) :
    Except String (Item × List Nat) :=
  match decryptName c key item with
  | .error e => .error e
  | .ok item1 =>
    match fsLookup fs (FullPath item1) with
    | none => .error "open file"
    | some ct =>
      match newCipher c key with
      | .error e => .error e
      | .ok E => .ok (item1, ofbCrypt E zeroIV ct)

/-- `Item.IsValidSecret`: hex-decode the stored salt and hash, re-derive
the key pair from the candidate secret, and compare the verification hash
(`hmac.Equal` is plain constant-time byte equality); a mismatch yields the
generic "failed password" error and no key. -/
def IsValidSecret (c : Crypto) (item : Item) (secret : List Nat) :
    Except String (List Nat) :=
  match hexDecode item.salt with
  | none => .error "salt decode"
  | some salt =>
    match hexDecode item.hash with
    | none => .error "hash decode"
    | some hash =>
      let kp := Key c secret salt
      if hash = kp.2 then .ok kp.1 else .error "failed password"

/-- Effect of the statement
`UPDATE storage SET counter = counter - 1, updated = ? WHERE counter > 0 AND id = ?`:
the new table and the number of affected rows. -/
def sqlDecrement (db : List Item) (now id : Int) : List Item × Nat :=
  (db.map (fun r =>
      if 0 < r.counter ∧ r.id = id then
        { r with counter := r.counter - 1, updated := now }
      else r),
   (db.filter (fun r => decide (0 < r.counter ∧ r.id = id))).length)

/-- `Item.Decrement`: saves the old in-memory counter, executes the
guarded UPDATE, then decrements the in-memory counter and reports
`counter != item.Counter`. `Exec` reports a no-match UPDATE through a zero
affected-row count, never through `sql.ErrNoRows`, so the source's
`err == sql.ErrNoRows` branch is dead and the in-memory decrement always
runs. Result: new table, new in-memory item, returned flag. -/
def Decrement (db : List Item) (item : Item) (now : Int) :
    List Item × Item × Bool :=
  let counter := item.counter
  let db1 := (sqlDecrement db now item.id).1
  let item1 := { item with counter := item.counter - 1 }
  (db1, item1, decide (counter ≠ item1.counter))

/-- The row returned by
`SELECT ... FROM storage WHERE counter > 0 AND hash = ?` (`QueryRow`
takes the first match). -/
def ReadRow (db : List Item) (hash : List Nat) : Option Item :=
  db.find? (fun r => decide (0 < r.counter) && (r.hash == hash))

/-- `Read`: on `sql.ErrNoRows` the zero-valued item is returned (callers
detect this through `item.ID == 0`). -/
def Read (db : List Item) (hash : List Nat) : Item :=
  match ReadRow db hash with
  | some r => r
  | none => { id := 0, name := [], path := [], salt := [], hash := [],
              counter := 0, created := 0, updated := 0, expired := 0 }

/-- Decimal digits (ASCII) of a natural number, most significant first;
empty for zero. -/
def natDigits (n : Nat) : List Nat :=
  if n = 0 then [] else natDigits (n / 10) ++ [n % 10 + 48]
termination_by n
decreasing_by
  rename_i h
  exact Nat.div_lt_self (Nat.pos_of_ne_zero h) (by norm_num)

/-- Decimal text of a natural number (`strconv.FormatInt` for
nonnegative input). -/
def natToDecBytes (n : Nat) : List Nat :=
  if n = 0 then [48] else natDigits n

/-- Decimal text of an integer (`strconv.FormatInt(v, 10)`). -/
def intToDecBytes (i : Int) : List Nat :=
  if i < 0 then 45 :: natToDecBytes i.natAbs else natToDecBytes i.toNat

/-- Numeric reading of a text value, as SQLite's INTEGER affinity applies
it when comparing the bound text parameter with the integer `id` column:
the text matches only if it is a well-formed decimal integer. -/
def decBytesToNat (l : List Nat) : Option Nat :=
  if (!l.isEmpty) && l.all (fun c => decide (48 ≤ c) && decide (c ≤ 57)) then
    some (l.foldl (fun a c => a * 10 + (c - 48)) 0)
  else none

def decBytesToInt (l : List Nat) : Option Int :=
  if l.head? = some 45 then (decBytesToNat l.tail).map (fun n => -(Int.ofNat n))
  else (decBytesToNat l).map Int.ofNat

/-- `strings.Join(parts, sep)`. -/
def joinStrings (sep : List Nat) : List (List Nat) → List Nat
  | [] => []
  | [x] => x
  | x :: rest => x ++ sep ++ joinStrings sep rest

/-- The single bound parameter of `DELETE FROM storage WHERE id IN (?)`:
the identifiers joined with commas (`strings.Join`). -/
def joinedIDs (ids : List Int) : List Nat :=
  joinStrings [44] (ids.map intToDecBytes)

/-- Whether the single-placeholder `IN (?)` clause matches a row: the
whole joined text, read as one number, equals the row id. -/
def inClauseMatches (param : List Nat) (id : Int) : Bool :=
  decBytesToInt param == some id

/-- `deleteByIDs`: prepare `DELETE FROM storage WHERE id IN (?)`, bind the
comma-joined identifier text to the one placeholder, and return the
affected row count. -/
def deleteByIDs (db : List Item) (ids : List Int) : List Item × Nat :=
  let p := joinedIDs ids
  (db.filter (fun r => !(inClauseMatches p r.id)),
   (db.filter (fun r => inClauseMatches p r.id)).length)

/-- `deleteByDate`: in one transaction, select `id`, `path`, `hash` of
every row with `expired < now`, delete by the collected ids via
`deleteByIDs`, remove the collected files (`os.RemoveAll`), and return the
affected-row count `deleteByIDs` reported. -/
def deleteByDate (db : List Item) (fs : Fs) (now : Int) :
    List Item × Fs × Nat :=
  let rows := db.filter (fun r => decide (r.expired < now))
  let paths := rows.map FullPath
  let ids := rows.map (fun r => r.id)
  let res := deleteByIDs db ids
  (res.1, paths.foldl fsRemove fs, res.2)

/-- Standard base64 alphabet of `encoding/base64.StdEncoding`, as ASCII
codes. -/
def b64Alphabet : List Nat :=
  (List.range 26).map (fun i => 65 + i) ++
  (List.range 26).map (fun i => 97 + i) ++
  (List.range 10).map (fun i => 48 + i) ++ [43, 47]

def sextetChar (s : Nat) : Nat := b64Alphabet.getD s 65

def charSextet (c : Nat) : Option Nat := b64Alphabet.findIdx? (fun x => x == c)

/-- `base64.StdEncoding.EncodeToString` on a byte list (ASCII codes of the
padded base64 text). -/
def b64encode : List Nat → List Nat
  | [] => []
  | [b1] => [sextetChar (b1 / 4), sextetChar (b1 % 4 * 16), 61, 61]
  | [b1, b2] =>
    [sextetChar (b1 / 4), sextetChar (b1 % 4 * 16 + b2 / 16),
     sextetChar (b2 % 16 * 4), 61]
  | b1 :: b2 :: b3 :: rest =>
    sextetChar (b1 / 4) :: sextetChar (b1 % 4 * 16 + b2 / 16) ::
    sextetChar (b2 % 16 * 4 + b3 / 64) :: sextetChar (b3 % 64) ::
    b64encode rest

/-- `base64.StdEncoding.DecodeString`: consume four characters at a time,
handling the `=` padding of the final group. -/
def b64decode : List Nat → Option (List Nat)
  | [] => some []
  | c1 :: c2 :: c3 :: c4 :: rest =>
    match charSextet c1, charSextet c2 with
    | some s1, some s2 =>
      if c3 = 61 ∧ c4 = 61 ∧ rest = [] then some [s1 * 4 + s2 / 16]
      else
        match charSextet c3 with
        | some s3 =>
          if c4 = 61 ∧ rest = [] then
            some [s1 * 4 + s2 / 16, s2 % 16 * 16 + s3 / 4]
          else
            match charSextet c4, b64decode rest with
            | some s4, some bs =>
              some ((s1 * 4 + s2 / 16) :: (s2 % 16 * 16 + s3 / 4) ::
                    (s3 % 4 * 64 + s4) :: bs)
            | _, _ => none
        | none => none
    | _, _ => none
  | _ => none

theorem charSextet_sextetChar : ∀ s < 64, charSextet (sextetChar s) = some s := by
  decide

theorem sextetChar_ne_61 : ∀ s < 64, sextetChar s ≠ 61 := by
  decide

theorem b64decode_b64encode (l : List Nat) (h : ∀ b ∈ l, b < 256) :
    b64decode (b64encode l) = some l := by
  induction l using b64encode.induct with
  | case1 => rfl
  | case2 b1 =>
    have hb1 : b1 < 256 := h b1 (by simp)
    have e1 : charSextet (sextetChar (b1 / 4)) = some (b1 / 4) :=
      charSextet_sextetChar _ (by omega)
    have e2 : charSextet (sextetChar (b1 % 4 * 16)) = some (b1 % 4 * 16) :=
      charSextet_sextetChar _ (by omega)
    simp only [b64encode, b64decode, e1, e2]
    rw [if_pos (by simp)]
    congr 2
    omega
  | case3 b1 b2 =>
    have hb1 : b1 < 256 := h b1 (by simp)
    have hb2 : b2 < 256 := h b2 (by simp)
    have e1 : charSextet (sextetChar (b1 / 4)) = some (b1 / 4) :=
      charSextet_sextetChar _ (by omega)
    have e2 : charSextet (sextetChar (b1 % 4 * 16 + b2 / 16))
        = some (b1 % 4 * 16 + b2 / 16) := charSextet_sextetChar _ (by omega)
    have e3 : charSextet (sextetChar (b2 % 16 * 4)) = some (b2 % 16 * 4) :=
      charSextet_sextetChar _ (by omega)
    simp only [b64encode, b64decode, e1, e2]
    rw [if_neg (fun hcon => sextetChar_ne_61 (b2 % 16 * 4) (by omega) hcon.1)]
    simp only [e3]
    rw [if_pos (by simp)]
    congr 1
    congr 1
    · omega
    congr 1
    omega
  | case4 b1 b2 b3 rest ih =>
    have hb1 : b1 < 256 := h b1 (by simp)
    have hb2 : b2 < 256 := h b2 (by simp)
    have hb3 : b3 < 256 := h b3 (by simp)
    have hrest : b64decode (b64encode rest) = some rest :=
      ih (fun x hx => h x (by simp [hx]))
    have e1 : charSextet (sextetChar (b1 / 4)) = some (b1 / 4) :=
      charSextet_sextetChar _ (by omega)
    have e2 : charSextet (sextetChar (b1 % 4 * 16 + b2 / 16))
        = some (b1 % 4 * 16 + b2 / 16) := charSextet_sextetChar _ (by omega)
    have e3 : charSextet (sextetChar (b2 % 16 * 4 + b3 / 64))
        = some (b2 % 16 * 4 + b3 / 64) := charSextet_sextetChar _ (by omega)
    have e4 : charSextet (sextetChar (b3 % 64)) = some (b3 % 64) :=
      charSextet_sextetChar _ (by omega)
    simp only [b64encode, b64decode, e1, e2]
    rw [if_neg (fun hcon =>
      sextetChar_ne_61 (b2 % 16 * 4 + b3 / 64) (by omega) hcon.1)]
    simp only [e3]
    rw [if_neg (fun hcon => sextetChar_ne_61 (b3 % 64) (by omega) hcon.1)]
    simp only [e4, hrest]
    congr 1
    congr 1
    · omega
    congr 1
    · omega
    congr 1
    omega

/-- CSRF constants of the web package: `csrfSaltSize`, `csrfLength`, and
`timeBytesLength`, the byte length of the fixed-width layout string
`"20060102T150405.000"`. -/
def csrfSaltSize : Nat := 64

def csrfLength : Nat := 64

def timeBytesLength : Nat := 19

/-- The fixed-width textual timestamp codec (`time.Format` and
`time.Parse` on the layout `"20060102T150405.000"`). Instants are
abstract (say, milliseconds); the calendar rendering itself is opaque, so
the codec is a parameter whose contract (19 bytes, parse inverts format)
is assumed where a theorem needs it. -/
structure TimeCodec where
  format : Nat → List Nat
  parse : List Nat → Option Nat

/-- `csrfHash`: SHAKE-256 digest (64 bytes) of `salt ++ time ++ secret`
(the source copies the three slices into one buffer in that order). -/
def csrfHash (c : Crypto) (salt secret timeB : List Nat) : List Nat :=
  c.shake256 csrfLength (salt ++ timeB ++ secret)

/-- `GenCSRFToken`: base64 of `salt ++ timeBytes ++ hash`, where the
64-byte salt is random and `timeBytes` renders `now + period`. -/
def GenCSRFToken (c : Crypto) (tc : TimeCodec) (rand : Nat → Nat)
    (secret : List Nat) (period now : Nat) : List Nat :=
  let salt := randBytes rand 0 csrfSaltSize
  let timeBytes := tc.format (now + period)
  let h := csrfHash c salt secret timeBytes
  b64encode (salt ++ timeBytes ++ h)

/-- `CheckCSRF` at current time `now`: base64-decode, require total
length 64 + 19 + 64, recompute and compare the digest, parse the embedded
timestamp, and reject when the current time is already past it. -/
def CheckCSRF (c : Crypto) (tc : TimeCodec) (token secret : List Nat)
    (now : Nat) : Except String Unit :=
  match b64decode token with
  | none => .error "decode error"
  | some t =>
    let l := t.length
    if l ≠ csrfSaltSize + timeBytesLength + csrfLength then .error "failed length"
    else
      let h := t.drop (l - csrfLength)
      let salt := t.take csrfSaltSize
      let timeB := (t.drop csrfSaltSize).take (l - csrfLength - csrfSaltSize)
      let b := csrfHash c salt secret timeB
      if h ≠ b then .error "failed hash"
      else
        match tc.parse timeB with
        | none => .error "parse error"
        | some genTime => if genTime < now then .error "expired" else .ok ()

/-- `IsNameHash` from the db package: the regular expression
`^[0-9a-f]{64}$` (the bound is `hashLength * 2`). -/
def IsNameHash (s : String) : Bool :=
  (s.length == hashLength * 2) &&
  s.data.all (fun ch =>
    (decide (48 ≤ ch.toNat) && decide (ch.toNat ≤ 57)) ||
    (decide (97 ≤ ch.toNat) && decide (ch.toNat ≤ 102)))

/-- `strings.Trim(s, "/ ")`: strip leading and trailing slashes and
spaces. -/
def goTrimPath (s : String) : String :=
  let cut : Char → Bool := fun ch => ch.toNat == 47 || ch.toNat == 32
  String.mk (((s.data.dropWhile cut).reverse.dropWhile cut).reverse)

/-- Outcome of the `Download` handler as far as the hash gate and the
database lookup are concerned: the HTTP status and whether a database
query was performed. The successful branch (`200`) stands for rendering
the password page on GET (the POST retrieval flow continues past this
point and is modelled elsewhere only as far as the claims need it). -/
structure DlOutcome where
  status : Nat
  dbQueried : Bool
deriving DecidableEq, Repr

/-- `Download`: trim the request URI, return 404 without touching the
database unless the result is a well-formed public hash, then look the
item up by hash and return 404 when the zero item (ID 0) came back. -/
def Download (db : List Item) (requestURI : String) : DlOutcome :=
  let hash := goTrimPath requestURI
  if IsNameHash hash then
    let item := Read db (hash.data.map Char.toNat)
    if item.id = 0 then ⟨404, true⟩ else ⟨200, true⟩
  else ⟨404, false⟩

theorem natDigits_zero : natDigits 0 = [] := by
  rw [natDigits]
  simp

theorem natDigits_succ (n : Nat) (h : n ≠ 0) :
    natDigits n = natDigits (n / 10) ++ [n % 10 + 48] := by
  rw [natDigits, if_neg h]

theorem natDigits_mem : ∀ (n : Nat), ∀ d ∈ natDigits n, 48 ≤ d ∧ d ≤ 57 := by
  intro n
  induction n using Nat.strong_induction_on with
  | _ n ih =>
    by_cases h : n = 0
    · subst h
      rw [natDigits_zero]
      simp
    · rw [natDigits_succ n h]
      intro d hd
      rcases List.mem_append.mp hd with hd | hd
      · exact ih (n / 10)
          (Nat.div_lt_self (Nat.pos_of_ne_zero h) (by norm_num)) d hd
      · simp at hd
        omega

theorem natDigits_ne_nil (n : Nat) (h : n ≠ 0) : natDigits n ≠ [] := by
  rw [natDigits_succ n h]
  simp

theorem natDigits_foldl : ∀ (n : Nat),
    ∀ a : Nat, (natDigits n).foldl (fun x c => x * 10 + (c - 48)) a
      = a * 10 ^ (natDigits n).length + n := by
  intro n
  induction n using Nat.strong_induction_on with
  | _ n ih =>
    intro a
    by_cases h : n = 0
    · subst h
      rw [natDigits_zero]
      simp
    · rw [natDigits_succ n h, List.foldl_append]
      simp only [List.foldl_cons, List.foldl_nil, List.length_append,
        List.length_singleton]
      rw [ih (n / 10) (Nat.div_lt_self (Nat.pos_of_ne_zero h) (by norm_num)) a]
      have hmod : n % 10 + 48 - 48 = n % 10 := by omega
      rw [hmod]
      have hdm : n / 10 * 10 + n % 10 = n := by omega
      calc (a * 10 ^ (natDigits (n / 10)).length + n / 10) * 10 + n % 10
          = a * (10 ^ (natDigits (n / 10)).length * 10)
            + (n / 10 * 10 + n % 10) := by ring
        _ = a * 10 ^ ((natDigits (n / 10)).length + 1) + n := by
            rw [hdm, pow_succ]

theorem natToDecBytes_mem (n : Nat) :
    ∀ d ∈ natToDecBytes n, 48 ≤ d ∧ d ≤ 57 := by
  rw [natToDecBytes]
  split
  · simp
  · exact natDigits_mem n

theorem decBytesToNat_natToDecBytes (n : Nat) :
    decBytesToNat (natToDecBytes n) = some n := by
  by_cases h : n = 0
  · subst h; rfl
  · rw [natToDecBytes, if_neg h]
    have hne : natDigits n ≠ [] := natDigits_ne_nil n h
    rw [decBytesToNat, if_pos]
    · rw [natDigits_foldl n 0]
      simp
    · simp only [Bool.and_eq_true, Bool.not_eq_true', List.isEmpty_iff,
        List.all_eq_true]
      refine ⟨?_, ?_⟩
      · simpa [List.isEmpty_iff] using hne
      · intro c hc
        have := natDigits_mem n c hc
        simp only [Bool.and_eq_true, decide_eq_true_eq]
        omega

theorem decBytesToInt_intToDecBytes (i : Int) :
    decBytesToInt (intToDecBytes i) = some i := by
  rw [intToDecBytes]
  by_cases h : i < 0
  · rw [if_pos h, decBytesToInt]
    rw [if_pos (by simp)]
    rw [List.tail_cons, decBytesToNat_natToDecBytes]
    simp only [Option.map_some', Option.some.injEq, Int.ofNat_eq_natCast]
    omega
  · rw [if_neg h, decBytesToInt]
    rw [if_neg ?hhead]
    case hhead =>
      have hne : natToDecBytes i.toNat ≠ [] := by
        rw [natToDecBytes]
        split
        · simp
        · exact natDigits_ne_nil _ (by assumption)
      obtain ⟨c, t, hct⟩ := List.exists_cons_of_ne_nil hne
      rw [hct]
      simp only [List.head?_cons, Option.some.injEq]
      intro hcon
      have hmemc : c ∈ natToDecBytes i.toNat := by rw [hct]; simp
      have := (natToDecBytes_mem _ c hmemc).1
      omega
    rw [decBytesToNat_natToDecBytes]
    have hcoe : ((i.toNat : Nat) : Int) = i := by omega
    simp [hcoe]

theorem decBytesToNat_of_mem_44 (l : List Nat) (h : 44 ∈ l) :
    decBytesToNat l = none := by
  rw [decBytesToNat, if_neg]
  simp only [Bool.and_eq_true, Bool.not_eq_true', List.isEmpty_iff,
    List.all_eq_true, not_and]
  intro _ hcon
  have := hcon 44 h
  simp at this

theorem decBytesToInt_of_mem_44 (l : List Nat) (h : 44 ∈ l) :
    decBytesToInt l = none := by
  rw [decBytesToInt]
  split
  · rename_i hh
    have hnn : l ≠ [] := by intro hc; subst hc; simp at hh
    obtain ⟨c, t, hct⟩ := List.exists_cons_of_ne_nil hnn
    subst hct
    simp only [List.head?_cons, Option.some.injEq] at hh
    subst hh
    have ht : 44 ∈ t := by
      rcases List.mem_cons.mp h with hc | hc
      · omega
      · exact hc
    rw [List.tail_cons, decBytesToNat_of_mem_44 t ht]
    rfl
  · rw [decBytesToNat_of_mem_44 l h]
    rfl

theorem joinedIDs_singleton (i : Int) : joinedIDs [i] = intToDecBytes i := rfl

theorem joinStrings_cons_cons (sep x y : List Nat) (rest : List (List Nat)) :
    joinStrings sep (x :: y :: rest) = x ++ sep ++ joinStrings sep (y :: rest) := rfl

theorem mem_44_joinedIDs (i j : Int) (rest : List Int) :
    44 ∈ joinedIDs (i :: j :: rest) := by
  show 44 ∈ joinStrings [44]
    (intToDecBytes i :: intToDecBytes j :: rest.map intToDecBytes)
  rw [joinStrings_cons_cons]
  simp

/-- A stored row whose counter is already exhausted, used to exhibit the
`Decrement` defect. -/
def itemC1 : Item :=
  { id := 1, name := [97], path := [116], salt := [], hash := [104],
    counter := 0, created := 0, updated := 0, expired := 9 }

/-- C1: the claim states that `Item.Decrement` returns true exactly when a
database row was actually updated and false (with no error) when no row
matched. The code violates this: `Exec` signals a no-match UPDATE through
a zero affected-row count and never through `sql.ErrNoRows`, so the
in-memory `item.Counter--` runs unconditionally and `counter !=
item.Counter` is always true. At an item whose stored counter is already
0, the guarded UPDATE matches no row and leaves the table unchanged, yet
`Decrement` returns true and drives the in-memory counter to -1 instead
of matching the stored value 0. -/
theorem C1_decrement_true_despite_no_match :
    (sqlDecrement [itemC1] 5 1).2 = 0 ∧
    Decrement [itemC1] itemC1 5
      = ([itemC1], { itemC1 with counter := -1 }, true) := by
  constructor
  · decide
  · decide

/-- Row used by the C2 witness. -/
def itemC2 : Item :=
  { id := 1, name := [98], path := [116], salt := [], hash := [104],
    counter := 2, created := 0, updated := 0, expired := 9 }

/-- C2: the stored counter of an item never becomes negative — the only
mutation is the decrement guarded by `counter > 0`, which preserves
nonnegativity of every stored row — and a row whose counter has reached
zero is invisible to every `Read` lookup by hash, because the SELECT
filters on `counter > 0`. -/
theorem C2_counter_nonneg_and_exhausted_invisible
    (db : List Item) (now id : Int) (hash : List Nat)
    (hinv : ∀ r ∈ db, 0 ≤ r.counter) :
    (∀ r ∈ (sqlDecrement db now id).1, 0 ≤ r.counter) ∧
    (∀ r, ReadRow db hash = some r → 0 < r.counter) := by
  constructor
  · intro r hr
    simp only [sqlDecrement, List.mem_map] at hr
    obtain ⟨r0, hr0, hmap⟩ := hr
    by_cases hg : 0 < r0.counter ∧ r0.id = id
    · rw [if_pos hg] at hmap
      subst hmap
      simp only
      omega
    · rw [if_neg hg] at hmap
      subst hmap
      exact hinv r0 hr0
  · intro r hr
    have hp := List.find?_some hr
    simp only [Bool.and_eq_true, decide_eq_true_eq] at hp
    exact hp.1

theorem C2_counter_nonneg_and_exhausted_invisible_witness :
    (∀ r ∈ (sqlDecrement [itemC2] 3 1).1, 0 ≤ r.counter) ∧
    (∀ r, ReadRow [itemC2] [104] = some r → 0 < r.counter) :=
  C2_counter_nonneg_and_exhausted_invisible [itemC2] 3 1 [104] (by decide)

/-- ASCII codes of the sixteen lowercase hexadecimal characters. -/
def lowercaseHexCodes : List Nat :=
  [48, 49, 50, 51, 52, 53, 54, 55, 56, 57, 97, 98, 99, 100, 101, 102]

theorem mem_lowercaseHexCodes_iff (n : Nat) :
    n ∈ lowercaseHexCodes ↔ ((48 ≤ n ∧ n ≤ 57) ∨ (97 ≤ n ∧ n ≤ 102)) := by
  simp only [lowercaseHexCodes, List.mem_cons, List.not_mem_nil, or_false]
  omega

/-- C8: `IsNameHash` accepts a string iff it consists of exactly 64
lowercase hexadecimal characters, and `Download` answers a request whose
trimmed path fails that format with 404 without performing any database
lookup. -/
theorem C8_public_hash_gate (s uri : String) (db : List Item)
    (hbad : IsNameHash (goTrimPath uri) = false) :
    (IsNameHash s = true ↔
      (s.data.length = 64 ∧ ∀ ch ∈ s.data, ch.toNat ∈ lowercaseHexCodes)) ∧
    Download db uri = ⟨404, false⟩ := by
  constructor
  · simp only [IsNameHash, Bool.and_eq_true, beq_iff_eq, List.all_eq_true,
      Bool.or_eq_true, decide_eq_true_eq]
    constructor
    · rintro ⟨h1, h2⟩
      refine ⟨h1, ?_⟩
      · intro ch hch
        rw [mem_lowercaseHexCodes_iff]
        exact h2 ch hch
    · rintro ⟨h1, h2⟩
      refine ⟨h1, ?_⟩
      · intro ch hch
        exact (mem_lowercaseHexCodes_iff ch.toNat).mp (h2 ch hch)
  · simp [Download, hbad]

theorem C8_public_hash_gate_witness :
    (IsNameHash "ab117372d41c05ba9ee4d4ea2f9ebab8e838990e4ff3316bb8c38cfb3ec2afc6" = true ↔
      (("ab117372d41c05ba9ee4d4ea2f9ebab8e838990e4ff3316bb8c38cfb3ec2afc6" : String).data.length = 64 ∧
        ∀ ch ∈ ("ab117372d41c05ba9ee4d4ea2f9ebab8e838990e4ff3316bb8c38cfb3ec2afc6" : String).data,
          ch.toNat ∈ lowercaseHexCodes)) ∧
    Download [] "/not-a-hash/" = ⟨404, false⟩ :=
  C8_public_hash_gate
    "ab117372d41c05ba9ee4d4ea2f9ebab8e838990e4ff3316bb8c38cfb3ec2afc6"
    "/not-a-hash/" [] (by decide)

/-- A general-purpose concrete instance of the primitive structure that
satisfies all the interface contracts (output lengths and byte bounds). -/
def cryptoT : Crypto where
  pbkdf2 := fun p s _ klen =>
    (List.range klen).map (fun i => (p.getD i 0 + s.getD i 0 + i) % 256)
  shake256 := fun n d => (List.range n).map (fun i => (d.getD i 0 + i) % 256)
  aesEnc := fun k b => (List.range 16).map (fun i => (k.getD i 0 + b.getD i 0 + i) % 256)

theorem cryptoT_aes_len : ∀ k b, (cryptoT.aesEnc k b).length = 16 := by
  intro k b
  simp [cryptoT]

theorem cryptoT_aes_lt : ∀ k b, ∀ x ∈ cryptoT.aesEnc k b, x < 256 := by
  intro k b x hx
  simp only [cryptoT, List.mem_map] at hx
  obtain ⟨i, _, hi⟩ := hx
  omega

theorem cryptoT_pb_len : ∀ p s it kl, (cryptoT.pbkdf2 p s it kl).length = kl := by
  intro p s it kl
  simp [cryptoT]

theorem cryptoT_sh_len : ∀ n d, (cryptoT.shake256 n d).length = n := by
  intro n d
  simp [cryptoT]

theorem cryptoT_sh_lt : ∀ n d, ∀ x ∈ cryptoT.shake256 n d, x < 256 := by
  intro n d x hx
  simp only [cryptoT, List.mem_map] at hx
  obtain ⟨i, _, hi⟩ := hx
  omega

/-- Item with a one-byte plaintext name, used by witnesses. -/
def itemC9 : Item :=
  { id := 0, name := [97], path := [116], salt := [], hash := [],
    counter := 1, created := 0, updated := 0, expired := 9 }

/-- C9: `encryptName` swallows a cipher-construction failure — for a key
whose length is not a valid AES key size it returns success and leaves
the (nonempty) plaintext name untouched — while for a valid 32-byte key
it replaces the name with the hex encoding of the fresh random IV
followed by the CFB ciphertext. -/
theorem C9_encryptName_swallows_bad_key (c : Crypto) (rand : Nat → Nat)
    (key1 key2 : List Nat) (item : Item) (hname : item.name ≠ [])
    (hbad : ¬(key1.length = 16 ∨ key1.length = 24 ∨ key1.length = 32))
    (h32 : key2.length = 32) :
    encryptName c rand key1 item = .ok item ∧
    encryptName c rand key2 item = .ok { item with
      name := hexEncode (randBytes rand 0 aesBlockSize ++
        cfbEncryptBytes (c.aesEnc key2) (randBytes rand 0 aesBlockSize) item.name) } := by
  constructor
  · rw [encryptName, if_neg hname, newCipher, if_neg hbad]
  · rw [encryptName, if_neg hname, newCipher, if_pos (Or.inr (Or.inr h32))]

theorem C9_encryptName_swallows_bad_key_witness :
    encryptName cryptoT (fun i => i) [1, 2, 3] itemC9 = .ok itemC9 ∧
    encryptName cryptoT (fun i => i) (List.replicate 32 0) itemC9 = .ok { itemC9 with
      name := hexEncode (randBytes (fun i => i) 0 aesBlockSize ++
        cfbEncryptBytes (cryptoT.aesEnc (List.replicate 32 0))
          (randBytes (fun i => i) 0 aesBlockSize) itemC9.name) } :=
  C9_encryptName_swallows_bad_key cryptoT (fun i => i) [1, 2, 3]
    (List.replicate 32 0) itemC9 (by decide) (by decide) (by decide)

/-- C10: `Key` is deterministic — equal secret and salt inputs give
byte-for-byte identical key/verification-hash pairs — and consequently
the public hash stored by a successful `Encrypt` is exactly the hex
encoding of the verification hash recomputed from the secret and the
drawn salt alone. -/
theorem C10_key_deterministic (c : Crypto) (s1 s2 t1 t2 : List Nat)
    (hs : s1 = s2) (ht : t1 = t2) :
    Key c s1 t1 = Key c s2 t2 ∧
    ∀ (rand : Nat → Nat) (fs : Fs) (item : Item) (content : List Nat)
      (item1 : Item) (fs1 : Fs),
      Encrypt c rand fs item content s1 = .ok (item1, fs1) →
      item1.hash = hexEncode (Key c s1 (randBytes rand 0 saltSize)).2 := by
  constructor
  · rw [hs, ht]
  · intro rand fs item content item1 fs1 henc
    simp only [Encrypt] at henc
    split at henc
    · exact absurd henc (by simp)
    · split at henc
      · exact absurd henc (by simp)
      · split at henc
        · exact absurd henc (by simp)
        · simp only [Except.ok.injEq, Prod.mk.injEq] at henc
          rw [← henc.1]

theorem C10_key_deterministic_witness :
    Key cryptoT [5] [9] = Key cryptoT [5] [9] ∧
    ∀ (rand : Nat → Nat) (fs : Fs) (item : Item) (content : List Nat)
      (item1 : Item) (fs1 : Fs),
      Encrypt cryptoT rand fs item content [5] = .ok (item1, fs1) →
      item1.hash = hexEncode (Key cryptoT [5] (randBytes rand 0 saltSize)).2 :=
  C10_key_deterministic cryptoT [5] [5] [9] [9] rfl rfl

/-- The item a successful `Encrypt` produces: encrypted name, public hash
set to the hex verification hash, salt stored in hex. -/
def encResultItem (c : Crypto) (rand : Nat → Nat) (item : Item)
    (secret : List Nat) : Item :=
  let salt := randBytes rand 0 saltSize
  let kp := Key c secret salt
  let iv := randBytes (fun i => rand (saltSize + i)) 0 aesBlockSize
  { item with
    name := hexEncode (iv ++ cfbEncryptBytes (c.aesEnc kp.1) iv item.name),
    hash := hexEncode kp.2,
    salt := hexEncode salt }

/-- The file a successful `Encrypt` writes: the OFB ciphertext of the
content at `storage_directory/hash`. -/
def encResultFile (c : Crypto) (rand : Nat → Nat) (item : Item)
    (content secret : List Nat) : List Nat × List Nat :=
  let salt := randBytes rand 0 saltSize
  let kp := Key c secret salt
  (item.path ++ (47 :: hexEncode kp.2), ofbCrypt (c.aesEnc kp.1) zeroIV content)

theorem Encrypt_ok (c : Crypto) (rand : Nat → Nat) (fs : Fs) (item : Item)
    (content secret : List Nat)
    (hname : item.name ≠ [])
    (hkl : (Key c secret (randBytes rand 0 saltSize)).1.length = 32)
    (hfile : fsLookup fs (item.path ++ (47 :: hexEncode (Key c secret (randBytes rand 0 saltSize)).2)) = none) :
    Encrypt c rand fs item content secret =
      .ok (encResultItem c rand item secret,
           encResultFile c rand item content secret :: fs) := by
  have hE : encryptName c (fun i => rand (saltSize + i))
      (Key c secret (randBytes rand 0 saltSize)).1 item = .ok { item with
        name := hexEncode (randBytes (fun i => rand (saltSize + i)) 0 aesBlockSize ++
          cfbEncryptBytes (c.aesEnc (Key c secret (randBytes rand 0 saltSize)).1)
            (randBytes (fun i => rand (saltSize + i)) 0 aesBlockSize) item.name) } := by
    rw [encryptName, if_neg hname, newCipher, if_pos (Or.inr (Or.inr hkl))]
  simp only [Encrypt, hE]
  have hfull : FullPath { item with
      name := hexEncode (randBytes (fun i => rand (saltSize + i)) 0 aesBlockSize ++
        cfbEncryptBytes (c.aesEnc (Key c secret (randBytes rand 0 saltSize)).1)
          (randBytes (fun i => rand (saltSize + i)) 0 aesBlockSize) item.name),
      hash := hexEncode (Key c secret (randBytes rand 0 saltSize)).2 }
      = item.path ++ (47 :: hexEncode (Key c secret (randBytes rand 0 saltSize)).2) := rfl
  rw [hfull, hfile]
  simp only [Option.isSome_none, Bool.false_eq_true, if_false]
  rw [newCipher, if_pos (Or.inr (Or.inr hkl))]
  rfl

/-- Item used by witnesses of the encryption-engine claims. -/
def itemC7 : Item :=
  { id := 0, name := [97], path := [116], salt := [], hash := [],
    counter := 1, created := 0, updated := 0, expired := 9 }

/-- C7: `Key` returns the PBKDF2 key with exactly 32768 iterations
requesting 32 bytes, together with the 32-byte SHAKE-256 digest of
`key ++ salt`; under the library's length contracts both outputs have
length 32; `Encrypt` draws a 128-byte salt, and the stored public hash is
the hex encoding of the verification hash (the second component), not of
the key. -/
theorem C7_key_derivation (c : Crypto) (rand : Nat → Nat) (fs : Fs)
    (item : Item) (content secret : List Nat)
    (hP : ∀ p s it kl, (c.pbkdf2 p s it kl).length = kl)
    (hSh : ∀ n d, (c.shake256 n d).length = n)
    (hname : item.name ≠ [])
    (hfile : fsLookup fs (item.path ++ (47 :: hexEncode (Key c secret (randBytes rand 0 saltSize)).2)) = none) :
    (randBytes rand 0 saltSize).length = 128 ∧
    Key c secret (randBytes rand 0 saltSize)
      = (c.pbkdf2 secret (randBytes rand 0 saltSize) 32768 32,
         c.shake256 32 (c.pbkdf2 secret (randBytes rand 0 saltSize) 32768 32
           ++ randBytes rand 0 saltSize)) ∧
    (Key c secret (randBytes rand 0 saltSize)).1.length = 32 ∧
    (Key c secret (randBytes rand 0 saltSize)).2.length = 32 ∧
    Encrypt c rand fs item content secret =
      .ok (encResultItem c rand item secret,
           encResultFile c rand item content secret :: fs) ∧
    (encResultItem c rand item secret).hash
      = hexEncode (Key c secret (randBytes rand 0 saltSize)).2 ∧
    (encResultItem c rand item secret).salt
      = hexEncode (randBytes rand 0 saltSize) := by
  have hkl : (Key c secret (randBytes rand 0 saltSize)).1.length = 32 := hP _ _ _ _
  exact ⟨randBytes_length rand 0 saltSize, rfl, hkl, hSh _ _,
    Encrypt_ok c rand fs item content secret hname hkl hfile, rfl, rfl⟩

theorem C7_key_derivation_witness :
    (randBytes (fun i => i) 0 saltSize).length = 128 ∧
    Key cryptoT [7] (randBytes (fun i => i) 0 saltSize)
      = (cryptoT.pbkdf2 [7] (randBytes (fun i => i) 0 saltSize) 32768 32,
         cryptoT.shake256 32 (cryptoT.pbkdf2 [7] (randBytes (fun i => i) 0 saltSize) 32768 32
           ++ randBytes (fun i => i) 0 saltSize)) ∧
    (Key cryptoT [7] (randBytes (fun i => i) 0 saltSize)).1.length = 32 ∧
    (Key cryptoT [7] (randBytes (fun i => i) 0 saltSize)).2.length = 32 ∧
    Encrypt cryptoT (fun i => i) [] itemC7 [1, 2] [7] =
      .ok (encResultItem cryptoT (fun i => i) itemC7 [7],
           encResultFile cryptoT (fun i => i) itemC7 [1, 2] [7] :: []) ∧
    (encResultItem cryptoT (fun i => i) itemC7 [7]).hash
      = hexEncode (Key cryptoT [7] (randBytes (fun i => i) 0 saltSize)).2 ∧
    (encResultItem cryptoT (fun i => i) itemC7 [7]).salt
      = hexEncode (randBytes (fun i => i) 0 saltSize) :=
  C7_key_derivation cryptoT (fun i => i) [] itemC7 [1, 2] [7]
    cryptoT_pb_len cryptoT_sh_len (by decide) rfl

/-- Primitive instance for the secret-verification witness: the derived
key is the secret itself and the digest is the identity, making the
verification hash `secret ++ salt`, which is injective in the secret. -/
def vsc : Crypto where
  pbkdf2 := fun p _ _ _ => p
  shake256 := fun _ d => d
  aesEnc := fun k b => (List.range 16).map (fun i => (k.getD i 0 + b.getD i 0 + i) % 256)

/-- Item used by the C5 witness. -/
def itemC5 : Item :=
  { id := 0, name := [97], path := [116], salt := [], hash := [],
    counter := 1, created := 0, updated := 0, expired := 9 }

/-- C5: for an item produced by `Encrypt` with secret S,
`IsValidSecret S` returns exactly the real symmetric key, while — under
the collision-freeness of the opaque derivation for the item's salt,
which is the property the code relies on SHAKE-256 for — any other
candidate secret yields the generic "failed password" error and no key
(and the function reads no content: it takes no file or content input at
all). -/
theorem C5_secret_verification (c : Crypto) (rand : Nat → Nat) (fs : Fs)
    (item : Item) (content secret secretW : List Nat)
    (hname : item.name ≠ [])
    (hkl : (Key c secret (randBytes rand 0 saltSize)).1.length = 32)
    (hfile : fsLookup fs (item.path ++ (47 :: hexEncode (Key c secret (randBytes rand 0 saltSize)).2)) = none)
    (hhb : ∀ b ∈ (Key c secret (randBytes rand 0 saltSize)).2, b < 256)
    (hcoll : ∀ s1 s2 : List Nat, s1 ≠ s2 →
      (Key c s1 (randBytes rand 0 saltSize)).2 ≠ (Key c s2 (randBytes rand 0 saltSize)).2)
    (hne : secretW ≠ secret) :
    Encrypt c rand fs item content secret =
      .ok (encResultItem c rand item secret,
           encResultFile c rand item content secret :: fs) ∧
    IsValidSecret c (encResultItem c rand item secret) secret
      = .ok (Key c secret (randBytes rand 0 saltSize)).1 ∧
    IsValidSecret c (encResultItem c rand item secret) secretW
      = .error "failed password" := by
  have hs : hexDecode (encResultItem c rand item secret).salt
      = some (randBytes rand 0 saltSize) :=
    hexDecode_hexEncode _ (randBytes_lt rand 0 saltSize)
  have hh : hexDecode (encResultItem c rand item secret).hash
      = some (Key c secret (randBytes rand 0 saltSize)).2 :=
    hexDecode_hexEncode _ hhb
  refine ⟨Encrypt_ok c rand fs item content secret hname hkl hfile, ?_, ?_⟩
  · simp only [IsValidSecret, hs, hh]
    rw [if_pos trivial]
  · simp only [IsValidSecret, hs, hh]
    rw [if_neg (hcoll secret secretW (fun he => hne he.symm))]

theorem C5_secret_verification_witness :
    Encrypt vsc (fun i => i) [] itemC5 [3, 4] (List.range 32) =
      .ok (encResultItem vsc (fun i => i) itemC5 (List.range 32),
           encResultFile vsc (fun i => i) itemC5 [3, 4] (List.range 32) :: []) ∧
    IsValidSecret vsc (encResultItem vsc (fun i => i) itemC5 (List.range 32)) (List.range 32)
      = .ok (Key vsc (List.range 32) (randBytes (fun i => i) 0 saltSize)).1 ∧
    IsValidSecret vsc (encResultItem vsc (fun i => i) itemC5 (List.range 32)) [1, 2]
      = .error "failed password" :=
  C5_secret_verification vsc (fun i => i) [] itemC5 [3, 4] (List.range 32) [1, 2]
    (by decide)
    (by decide)
    rfl
    (by
      intro b hb
      have hb2 : b ∈ List.range 32 ++ randBytes (fun i => i) 0 saltSize := hb
      rcases List.mem_append.mp hb2 with hb3 | hb3
      · have := List.mem_range.mp hb3
        omega
      · exact randBytes_lt _ 0 saltSize b hb3)
    (by
      intro s1 s2 hne12 heq
      have heq2 : s1 ++ randBytes (fun i => i) 0 saltSize
          = s2 ++ randBytes (fun i => i) 0 saltSize := heq
      exact hne12 (List.append_cancel_right heq2))
    (by decide)

theorem decryptName_ok (c : Crypto) (key iv plain : List Nat) (item : Item)
    (hivlen : iv.length = 16)
    (hkey : key.length = 16 ∨ key.length = 24 ∨ key.length = 32)
    (hE : ∀ b, (c.aesEnc key b).length = 16)
    (hname : item.name = hexEncode (iv ++ cfbEncryptBytes (c.aesEnc key) iv plain))
    (hbytes : ∀ b ∈ iv ++ cfbEncryptBytes (c.aesEnc key) iv plain, b < 256) :
    decryptName c key item = .ok { item with name := plain } := by
  have hdec : hexDecode item.name
      = some (iv ++ cfbEncryptBytes (c.aesEnc key) iv plain) := by
    rw [hname]
    exact hexDecode_hexEncode _ hbytes
  have hlen : (iv ++ cfbEncryptBytes (c.aesEnc key) iv plain).length
      = 16 + (cfbEncryptBytes (c.aesEnc key) iv plain).length := by
    rw [List.length_append, hivlen]
  have hnne : item.name ≠ [] := by
    rw [hname]
    intro hcon
    have := congrArg List.length hcon
    rw [hexEncode_length] at this
    simp [hlen] at this
  have hblen : ¬(iv ++ cfbEncryptBytes (c.aesEnc key) iv plain).length < aesBlockSize := by
    rw [hlen]
    simp [aesBlockSize]
  have htake : (iv ++ cfbEncryptBytes (c.aesEnc key) iv plain).take aesBlockSize = iv := by
    show (iv ++ _).take 16 = iv
    rw [← hivlen, List.take_left]
  have hdrop : (iv ++ cfbEncryptBytes (c.aesEnc key) iv plain).drop aesBlockSize
      = cfbEncryptBytes (c.aesEnc key) iv plain := by
    show (iv ++ _).drop 16 = _
    rw [← hivlen, List.drop_left]
  simp only [decryptName, if_neg hnne, hdec, if_neg hblen, newCipher, if_pos hkey,
    htake, hdrop, cfbDecryptBytes_cfbEncryptBytes _ hE]

/-- Item used by the C3 witness. -/
def itemC3 : Item :=
  { id := 0, name := [97, 46, 98], path := [116], salt := [], hash := [],
    counter := 1, created := 0, updated := 0, expired := 9 }

/-- C3: round trip of the storage engine — for any content bytes, any
nonempty filename and any secret, `Encrypt` succeeds (given a fresh file
path) and `Decrypt`, run with the key derived from the same secret and
the item's stored salt (the stored hex salt decodes to exactly the drawn
salt), writes back exactly the original content, and the decrypted
filename equals the originally submitted one. -/
theorem C3_encrypt_decrypt_roundtrip (c : Crypto) (rand : Nat → Nat) (fs : Fs)
    (item : Item) (content secret : List Nat)
    (hE16 : ∀ k b, (c.aesEnc k b).length = 16)
    (hEB : ∀ k b, ∀ x ∈ c.aesEnc k b, x < 256)
    (hname : item.name ≠ [])
    (hnameB : ∀ b ∈ item.name, b < 256)
    (hkl : (Key c secret (randBytes rand 0 saltSize)).1.length = 32)
    (hfile : fsLookup fs (item.path ++ (47 :: hexEncode (Key c secret (randBytes rand 0 saltSize)).2)) = none) :
    Encrypt c rand fs item content secret =
      .ok (encResultItem c rand item secret,
           encResultFile c rand item content secret :: fs) ∧
    hexDecode (encResultItem c rand item secret).salt
      = some (randBytes rand 0 saltSize) ∧
    Decrypt c (Key c secret (randBytes rand 0 saltSize)).1
        (encResultFile c rand item content secret :: fs)
        (encResultItem c rand item secret)
      = .ok ({ encResultItem c rand item secret with name := item.name }, content) := by
  have hkey32 : ((Key c secret (randBytes rand 0 saltSize)).1.length = 16 ∨
      (Key c secret (randBytes rand 0 saltSize)).1.length = 24 ∨
      (Key c secret (randBytes rand 0 saltSize)).1.length = 32) :=
    Or.inr (Or.inr hkl)
  have hEfix : ∀ b, (c.aesEnc (Key c secret (randBytes rand 0 saltSize)).1 b).length = 16 :=
    fun b => hE16 _ b
  have hDN : decryptName c (Key c secret (randBytes rand 0 saltSize)).1
      (encResultItem c rand item secret)
      = .ok { encResultItem c rand item secret with name := item.name } := by
    have := decryptName_ok c (Key c secret (randBytes rand 0 saltSize)).1
      (randBytes (fun i => rand (saltSize + i)) 0 aesBlockSize) item.name
      (encResultItem c rand item secret)
      (randBytes_length _ 0 aesBlockSize)
      hkey32 hEfix rfl
      (by
        intro b hb
        rcases List.mem_append.mp hb with hb | hb
        · exact randBytes_lt _ 0 aesBlockSize b hb
        · exact mem_cfbEncryptBytes_lt _ (fun blk => hEB _ blk) _ item.name hnameB b hb)
    exact this
  refine ⟨Encrypt_ok c rand fs item content secret hname hkl hfile,
    hexDecode_hexEncode _ (randBytes_lt rand 0 saltSize), ?_⟩
  have hfp : FullPath { encResultItem c rand item secret with name := item.name }
      = (encResultFile c rand item content secret).1 := rfl
  have hlook : fsLookup (encResultFile c rand item content secret :: fs)
      (FullPath { encResultItem c rand item secret with name := item.name })
      = some (encResultFile c rand item content secret).2 := by
    rw [hfp]
    unfold fsLookup
    rw [List.find?_cons_of_pos _ (by simp)]
    rfl
  have hofb : ofbCrypt (c.aesEnc (Key c secret (randBytes rand 0 saltSize)).1) zeroIV
      (encResultFile c rand item content secret).2 = content := by
    show ofbCrypt _ zeroIV (ofbCrypt _ zeroIV content) = content
    exact ofbCrypt_ofbCrypt _ hEfix zeroIV content
  simp only [Decrypt, hDN, hlook, newCipher, if_pos hkey32, hofb]

theorem C3_encrypt_decrypt_roundtrip_witness :
    Encrypt cryptoT (fun i => i) [] itemC3 [10, 20, 30] [5] =
      .ok (encResultItem cryptoT (fun i => i) itemC3 [5],
           encResultFile cryptoT (fun i => i) itemC3 [10, 20, 30] [5] :: []) ∧
    hexDecode (encResultItem cryptoT (fun i => i) itemC3 [5]).salt
      = some (randBytes (fun i => i) 0 saltSize) ∧
    Decrypt cryptoT (Key cryptoT [5] (randBytes (fun i => i) 0 saltSize)).1
        (encResultFile cryptoT (fun i => i) itemC3 [10, 20, 30] [5] :: [])
        (encResultItem cryptoT (fun i => i) itemC3 [5])
      = .ok ({ encResultItem cryptoT (fun i => i) itemC3 [5] with name := itemC3.name },
             [10, 20, 30]) :=
  C3_encrypt_decrypt_roundtrip cryptoT (fun i => i) [] itemC3 [10, 20, 30] [5]
    cryptoT_aes_len cryptoT_aes_lt (by decide) (by decide) (by decide) rfl

theorem fsRemove_cons (e : List Nat × List Nat) (fs : Fs) (p : List Nat) :
    fsRemove (e :: fs) p
      = if (e.1 == p) = true then fsRemove fs p else e :: fsRemove fs p := by
  unfold fsRemove
  rw [List.filter_cons]
  by_cases he : (e.1 == p) = true
  · simp [he]
  · simp [he]

theorem fsLookup_cons (e : List Nat × List Nat) (fs : Fs) (p : List Nat) :
    fsLookup (e :: fs) p
      = if (e.1 == p) = true then some e.2 else fsLookup fs p := by
  unfold fsLookup
  rw [List.find?_cons]
  by_cases he : (e.1 == p) = true
  · simp [he]
  · simp [he]

theorem fsLookup_fsRemove_self (fs : Fs) (p : List Nat) :
    fsLookup (fsRemove fs p) p = none := by
  induction fs with
  | nil => rfl
  | cons e fs ih =>
    rw [fsRemove_cons]
    by_cases he : (e.1 == p) = true
    · rw [if_pos he]
      exact ih
    · rw [if_neg he, fsLookup_cons, if_neg he]
      exact ih

theorem fsLookup_none_fsRemove (fs : Fs) (p q : List Nat)
    (h : fsLookup fs p = none) : fsLookup (fsRemove fs q) p = none := by
  induction fs with
  | nil => rfl
  | cons e fs ih =>
    rw [fsLookup_cons] at h
    by_cases he : (e.1 == p) = true
    · rw [if_pos he] at h
      simp at h
    · rw [if_neg he] at h
      rw [fsRemove_cons]
      by_cases hq : (e.1 == q) = true
      · rw [if_pos hq]
        exact ih h
      · rw [if_neg hq, fsLookup_cons, if_neg he]
        exact ih h

theorem fsLookup_foldl_fsRemove_none :
    ∀ (paths : List (List Nat)) (fs : Fs) (p : List Nat),
      (p ∈ paths ∨ fsLookup fs p = none) →
      fsLookup (paths.foldl fsRemove fs) p = none := by
  intro paths
  induction paths with
  | nil =>
    intro fs p hp
    rcases hp with hp | hp
    · simp at hp
    · simpa using hp
  | cons q rest ih =>
    intro fs p hp
    simp only [List.foldl_cons]
    rcases hp with hp | hp
    · rcases List.mem_cons.mp hp with hp | hp
      · subst hp
        exact ih _ p (Or.inr (fsLookup_fsRemove_self fs p))
      · exact ih _ p (Or.inl hp)
    · exact ih _ p (Or.inr (fsLookup_none_fsRemove fs p q hp))

/-- Two rows whose expiry has passed, with their on-disk files, on which
the sweep's single-placeholder `IN (?)` binding deletes nothing. -/
def rowC4a : Item :=
  { id := 1, name := [97], path := [112], salt := [], hash := [104],
    counter := 1, created := 0, updated := 0, expired := 0 }

def rowC4b : Item :=
  { id := 2, name := [98], path := [112], salt := [], hash := [105],
    counter := 1, created := 0, updated := 0, expired := 0 }

def dbC4 : List Item := [rowC4a, rowC4b]

def fsC4 : Fs := [(FullPath rowC4a, [9]), (FullPath rowC4b, [8])]

/-- C4 counterexample: with two expired rows (ids 1 and 2, both matching
the expiry SELECT at time 1), `deleteByDate` binds the text "1,2" to the
single `IN (?)` placeholder, which matches no integer id: both rows
survive and the returned count is 0 — the claim requires both rows
deleted and a count of 2 — while both files are nonetheless removed from
disk. -/
theorem C4_sweep_counterexample :
    ((dbC4.filter (fun r => decide (r.expired < 1))).length = 2) ∧
    (deleteByDate dbC4 fsC4 1).1 = dbC4 ∧
    (deleteByDate dbC4 fsC4 1).2.2 = 0 ∧
    (deleteByDate dbC4 fsC4 1).2.1 = [] := by
  have hids : (dbC4.filter (fun r => decide (r.expired < (1 : Int)))).map (fun r => r.id)
      = [(1 : Int), 2] := by decide
  have h44 : 44 ∈ joinedIDs
      ((dbC4.filter (fun r => decide (r.expired < (1 : Int)))).map (fun r => r.id)) := by
    rw [hids]
    exact mem_44_joinedIDs 1 2 []
  have hmatch : ∀ x : Int, inClauseMatches
      (joinedIDs ((dbC4.filter (fun r => decide (r.expired < (1 : Int)))).map (fun r => r.id))) x
      = false := by
    intro x
    unfold inClauseMatches
    rw [decBytesToInt_of_mem_44 _ h44]
    rfl
  refine ⟨by decide, ?_, ?_, by decide⟩
  · show dbC4.filter (fun r => !(inClauseMatches
      (joinedIDs ((dbC4.filter (fun r => decide (r.expired < (1 : Int)))).map (fun r => r.id))) r.id))
      = dbC4
    have hcg : dbC4.filter (fun r => !(inClauseMatches
        (joinedIDs ((dbC4.filter (fun r => decide (r.expired < (1 : Int)))).map (fun r => r.id))) r.id))
        = dbC4.filter (fun _ => true) :=
      List.filter_congr (fun r _ => by rw [hmatch r.id]; rfl)
    rw [hcg, List.filter_true]
  · show (dbC4.filter (fun r => inClauseMatches
      (joinedIDs ((dbC4.filter (fun r => decide (r.expired < (1 : Int)))).map (fun r => r.id))) r.id)).length
      = 0
    have hcg : dbC4.filter (fun r => inClauseMatches
        (joinedIDs ((dbC4.filter (fun r => decide (r.expired < (1 : Int)))).map (fun r => r.id))) r.id)
        = dbC4.filter (fun _ => false) :=
      List.filter_congr (fun r _ => hmatch r.id)
    rw [hcg, List.filter_false]
    rfl

/-- C4 (amended): the sweep selects every row whose `expired` is before
`now` and removes all of their files from disk; but the DELETE binds the
comma-joined id list to one placeholder, so the rows deleted are exactly
those whose id equals the whole joined text read as a single integer, and
the returned count is the number of such rows, not the number of expired
rows: with exactly one expired row that row is deleted and 1 is returned,
while with two or more expired rows no row is deleted and 0 is returned. -/
theorem C4_sweep_amended (db : List Item) (fs : Fs) (now : Int) :
    (∀ r ∈ db, r.expired < now →
      fsLookup (deleteByDate db fs now).2.1 (FullPath r) = none) ∧
    (deleteByDate db fs now).1 = db.filter (fun r => !(inClauseMatches
      (joinedIDs ((db.filter (fun r => decide (r.expired < now))).map (fun r => r.id))) r.id)) ∧
    (deleteByDate db fs now).2.2 = (db.filter (fun r => inClauseMatches
      (joinedIDs ((db.filter (fun r => decide (r.expired < now))).map (fun r => r.id))) r.id)).length ∧
    (∀ i : Int, (db.filter (fun r => decide (r.expired < now))).map (fun r => r.id) = [i] →
      (deleteByDate db fs now).1 = db.filter (fun r => !(i == r.id)) ∧
      (deleteByDate db fs now).2.2 = (db.filter (fun r => i == r.id)).length) ∧
    (2 ≤ (db.filter (fun r => decide (r.expired < now))).length →
      (deleteByDate db fs now).1 = db ∧ (deleteByDate db fs now).2.2 = 0) := by
  refine ⟨?_, rfl, rfl, ?_, ?_⟩
  · intro r hr hexp
    apply fsLookup_foldl_fsRemove_none
    left
    exact List.mem_map_of_mem FullPath
      (List.mem_filter.mpr ⟨hr, by simpa using hexp⟩)
  · intro i hi
    have hj : joinedIDs ((db.filter (fun r => decide (r.expired < now))).map (fun r => r.id))
        = intToDecBytes i := by
      rw [hi, joinedIDs_singleton]
    have hm : ∀ x : Int, inClauseMatches
        (joinedIDs ((db.filter (fun r => decide (r.expired < now))).map (fun r => r.id))) x
        = (i == x) := by
      intro x
      unfold inClauseMatches
      rw [hj, decBytesToInt_intToDecBytes]
      rfl
    constructor
    · show db.filter (fun r => !(inClauseMatches _ r.id)) = _
      exact List.filter_congr (fun r _ => by rw [hm r.id])
    · show (db.filter (fun r => inClauseMatches _ r.id)).length = _
      rw [List.filter_congr (fun r _ => hm r.id)]
  · intro h2
    have hm : ∀ x : Int, inClauseMatches
        (joinedIDs ((db.filter (fun r => decide (r.expired < now))).map (fun r => r.id))) x
        = false := by
      intro x
      match hrows : db.filter (fun r => decide (r.expired < now)) with
      | [] => rw [hrows] at h2; simp at h2
      | [a] => rw [hrows] at h2; simp at h2
      | a :: b :: rest =>
        unfold inClauseMatches
        rw [show (db.filter (fun r => decide (r.expired < now))).map (fun r => r.id)
            = a.id :: b.id :: rest.map (fun r => r.id) from by rw [hrows]; rfl]
        rw [decBytesToInt_of_mem_44 _ (mem_44_joinedIDs a.id b.id _)]
        rfl
    constructor
    · show db.filter (fun r => !(inClauseMatches
        (joinedIDs ((db.filter (fun r => decide (r.expired < now))).map (fun r => r.id))) r.id)) = db
      have hcg : db.filter (fun r => !(inClauseMatches
          (joinedIDs ((db.filter (fun r => decide (r.expired < now))).map (fun r => r.id))) r.id))
          = db.filter (fun _ => true) :=
        List.filter_congr (fun r _ => by rw [hm r.id]; rfl)
      rw [hcg, List.filter_true]
    · show (db.filter (fun r => inClauseMatches
        (joinedIDs ((db.filter (fun r => decide (r.expired < now))).map (fun r => r.id))) r.id)).length = 0
      have hcg : db.filter (fun r => inClauseMatches
          (joinedIDs ((db.filter (fun r => decide (r.expired < now))).map (fun r => r.id))) r.id)
          = db.filter (fun _ => false) :=
        List.filter_congr (fun r _ => hm r.id)
      rw [hcg, List.filter_false]
      rfl

/-- A single expired row for the C4 witness. -/
def rowC4w : Item :=
  { id := 3, name := [99], path := [112], salt := [], hash := [106],
    counter := 1, created := 0, updated := 0, expired := 0 }

theorem C4_sweep_amended_witness :
    (∀ r ∈ [rowC4w], r.expired < 1 →
      fsLookup (deleteByDate [rowC4w] [(FullPath rowC4w, [7])] 1).2.1 (FullPath r) = none) ∧
    (deleteByDate [rowC4w] [(FullPath rowC4w, [7])] 1).1
      = [rowC4w].filter (fun r => !(inClauseMatches
        (joinedIDs (([rowC4w].filter (fun r => decide (r.expired < 1))).map (fun r => r.id))) r.id)) ∧
    (deleteByDate [rowC4w] [(FullPath rowC4w, [7])] 1).2.2
      = ([rowC4w].filter (fun r => inClauseMatches
        (joinedIDs (([rowC4w].filter (fun r => decide (r.expired < 1))).map (fun r => r.id))) r.id)).length ∧
    (∀ i : Int, ([rowC4w].filter (fun r => decide (r.expired < 1))).map (fun r => r.id) = [i] →
      (deleteByDate [rowC4w] [(FullPath rowC4w, [7])] 1).1
        = [rowC4w].filter (fun r => !(i == r.id)) ∧
      (deleteByDate [rowC4w] [(FullPath rowC4w, [7])] 1).2.2
        = ([rowC4w].filter (fun r => i == r.id)).length) ∧
    (2 ≤ ([rowC4w].filter (fun r => decide (r.expired < 1))).length →
      (deleteByDate [rowC4w] [(FullPath rowC4w, [7])] 1).1 = [rowC4w] ∧
      (deleteByDate [rowC4w] [(FullPath rowC4w, [7])] 1).2.2 = 0) :=
  C4_sweep_amended [rowC4w] [(FullPath rowC4w, [7])] 1

theorem CheckCSRF_decoded (c : Crypto) (tc : TimeCodec)
    (salt tb h secret : List Nat) (now : Nat)
    (hs : salt.length = 64) (ht : tb.length = 19) (hh : h.length = 64)
    (hbytes : ∀ b ∈ salt ++ tb ++ h, b < 256) :
    CheckCSRF c tc (b64encode (salt ++ tb ++ h)) secret now =
      (if h ≠ csrfHash c salt secret tb then .error "failed hash"
       else
         match tc.parse tb with
         | none => .error "parse error"
         | some genTime =>
           if genTime < now then .error "expired" else .ok ()) := by
  have hdec := b64decode_b64encode _ hbytes
  have hlen : (salt ++ tb ++ h).length = 147 := by
    simp only [List.length_append, hs, ht, hh]
  have hdrop : (salt ++ tb ++ h).drop ((salt ++ tb ++ h).length - 64) = h := by
    rw [hlen]
    exact List.drop_left' (by simp [List.length_append, hs, ht])
  have htake : (salt ++ tb ++ h).take 64 = salt := by
    rw [List.append_assoc]
    exact List.take_left' hs
  have htimeb : ((salt ++ tb ++ h).drop 64).take
      ((salt ++ tb ++ h).length - 64 - 64) = tb := by
    rw [hlen, List.append_assoc, List.drop_left' hs]
    exact List.take_left' (by simp [ht])
  simp only [CheckCSRF, hdec, csrfSaltSize, csrfLength, timeBytesLength]
  rw [if_neg (by rw [hlen]; simp)]
  rw [hdrop, htake, htimeb]

/-- C6: anti-forgery token round trip — `CheckCSRF (GenCSRFToken secret
period) secret` succeeds at any time up to the embedded instant
`now + period` and fails with "expired" once that instant has passed;
it fails with "failed length" whenever the base64-decoded token's byte
length differs from 64 + 19 + 64 = 147; it fails with "failed hash" when
the embedded hash differs from the recomputed digest of
`salt ++ timestamp ++ secret`, and in particular when the checking secret
differs (given that distinct secrets give distinct digests here, the
property the code relies on SHAKE-256 for). The fixed-width timestamp
codec contract (19 bytes wide, parse inverts format) is assumed for the
embedded instant. -/
theorem C6_csrf_roundtrip (c : Crypto) (tc : TimeCodec) (rand : Nat → Nat)
    (secret secretW bytes h2 : List Nat) (period now now1 now2 : Nat)
    (htbLen : (tc.format (now + period)).length = 19)
    (htbB : ∀ b ∈ tc.format (now + period), b < 256)
    (htbP : tc.parse (tc.format (now + period)) = some (now + period))
    (hhLen : (csrfHash c (randBytes rand 0 csrfSaltSize) secret
      (tc.format (now + period))).length = 64)
    (hhB : ∀ b ∈ csrfHash c (randBytes rand 0 csrfSaltSize) secret
      (tc.format (now + period)), b < 256)
    (hbytesB : ∀ b ∈ bytes, b < 256)
    (hblen : bytes.length ≠ 147)
    (hh2len : h2.length = 64)
    (hh2B : ∀ b ∈ h2, b < 256)
    (hh2ne : h2 ≠ csrfHash c (randBytes rand 0 csrfSaltSize) secret
      (tc.format (now + period)))
    (hsne : secretW ≠ secret)
    (hinj : ∀ s1 s2 : List Nat, s1 ≠ s2 →
      csrfHash c (randBytes rand 0 csrfSaltSize) s1 (tc.format (now + period))
        ≠ csrfHash c (randBytes rand 0 csrfSaltSize) s2 (tc.format (now + period)))
    (hnow1 : now1 ≤ now + period)
    (hnow2 : now + period < now2) :
    CheckCSRF c tc (GenCSRFToken c tc rand secret period now) secret now1 = .ok () ∧
    CheckCSRF c tc (GenCSRFToken c tc rand secret period now) secret now2
      = .error "expired" ∧
    CheckCSRF c tc (b64encode bytes) secret now1 = .error "failed length" ∧
    CheckCSRF c tc (b64encode (randBytes rand 0 csrfSaltSize
        ++ tc.format (now + period) ++ h2)) secret now1 = .error "failed hash" ∧
    CheckCSRF c tc (GenCSRFToken c tc rand secret period now) secretW now1
      = .error "failed hash" := by
  have hsalt : (randBytes rand 0 csrfSaltSize).length = 64 :=
    randBytes_length rand 0 csrfSaltSize
  have hgood : ∀ b ∈ randBytes rand 0 csrfSaltSize ++ tc.format (now + period)
      ++ csrfHash c (randBytes rand 0 csrfSaltSize) secret (tc.format (now + period)),
      b < 256 := by
    intro b hb
    rcases List.mem_append.mp hb with hb | hb
    · rcases List.mem_append.mp hb with hb | hb
      · exact randBytes_lt rand 0 csrfSaltSize b hb
      · exact htbB b hb
    · exact hhB b hb
  have hgood2 : ∀ b ∈ randBytes rand 0 csrfSaltSize ++ tc.format (now + period)
      ++ h2, b < 256 := by
    intro b hb
    rcases List.mem_append.mp hb with hb | hb
    · rcases List.mem_append.mp hb with hb | hb
      · exact randBytes_lt rand 0 csrfSaltSize b hb
      · exact htbB b hb
    · exact hh2B b hb
  have hgen : ∀ (s : List Nat) (t : Nat),
      CheckCSRF c tc (GenCSRFToken c tc rand secret period now) s t =
        (if csrfHash c (randBytes rand 0 csrfSaltSize) secret (tc.format (now + period))
            ≠ csrfHash c (randBytes rand 0 csrfSaltSize) s (tc.format (now + period)) then
          .error "failed hash"
        else
          match tc.parse (tc.format (now + period)) with
          | none => .error "parse error"
          | some genTime =>
            if genTime < t then .error "expired" else .ok ()) := by
    intro s t
    exact CheckCSRF_decoded c tc (randBytes rand 0 csrfSaltSize)
      (tc.format (now + period))
      (csrfHash c (randBytes rand 0 csrfSaltSize) secret (tc.format (now + period)))
      s t hsalt htbLen hhLen hgood
  refine ⟨?_, ?_, ?_, ?_, ?_⟩
  · rw [hgen secret now1, if_neg (by simp), htbP]
    show (if now + period < now1 then (Except.error "expired" : Except String Unit)
      else Except.ok ()) = Except.ok ()
    rw [if_neg (by omega)]
  · rw [hgen secret now2, if_neg (by simp), htbP]
    show (if now + period < now2 then (Except.error "expired" : Except String Unit)
      else Except.ok ()) = Except.error "expired"
    rw [if_pos hnow2]
  · have hdec := b64decode_b64encode bytes hbytesB
    simp only [CheckCSRF, hdec, csrfSaltSize, csrfLength, timeBytesLength]
    rw [if_pos (by omega)]
  · rw [CheckCSRF_decoded c tc (randBytes rand 0 csrfSaltSize)
      (tc.format (now + period)) h2 secret now1 hsalt htbLen hh2len hgood2]
    rw [if_pos hh2ne]
  · rw [hgen secretW now1]
    rw [if_pos (fun heq => hinj secretW secret hsne heq.symm)]

/-- Concrete fixed-width decimal codec satisfying the timestamp-codec
contract at the witness instant: 19 zero-padded decimal digits. -/
def codecW : TimeCodec where
  format := fun t => (List.range 19).map (fun i => t / 10 ^ (18 - i) % 10 + 48)
  parse := decBytesToNat

def csrfSaltW : List Nat := randBytes (fun i => i) 0 64

def csrfTbW : List Nat := codecW.format 105

def csrfGenInputW : List Nat := csrfSaltW ++ csrfTbW ++ [7]

/-- Primitive instance for the CSRF witness: the digest is 64 zero bytes
on the one generation input and `255 :: input` elsewhere, which keeps
digests of distinct secrets distinct. -/
def csrfC : Crypto where
  pbkdf2 := fun p _ _ _ => p
  shake256 := fun n d =>
    if n = 64 ∧ d = csrfGenInputW then List.replicate 64 0 else 255 :: d
  aesEnc := fun _ _ => List.replicate 16 0

theorem csrfSaltW_length : csrfSaltW.length = 64 := by decide

theorem csrfTbW_length : csrfTbW.length = 19 := by decide

theorem csrfC_hash_eq (s : List Nat) :
    csrfHash csrfC (randBytes (fun i => i) 0 csrfSaltSize) s (codecW.format (100 + 5))
      = if (csrfSaltW ++ csrfTbW ++ s) = csrfGenInputW then List.replicate 64 0
        else 255 :: (csrfSaltW ++ csrfTbW ++ s) := by
  show csrfC.shake256 64 (csrfSaltW ++ csrfTbW ++ s) = _
  show (if 64 = 64 ∧ (csrfSaltW ++ csrfTbW ++ s) = csrfGenInputW
    then List.replicate 64 0 else 255 :: (csrfSaltW ++ csrfTbW ++ s)) = _
  by_cases h : (csrfSaltW ++ csrfTbW ++ s) = csrfGenInputW
  · rw [if_pos ⟨rfl, h⟩, if_pos h]
  · rw [if_neg (fun hc => h hc.2), if_neg h]

theorem csrfC_hash_inj : ∀ s1 s2 : List Nat, s1 ≠ s2 →
    csrfHash csrfC (randBytes (fun i => i) 0 csrfSaltSize) s1 (codecW.format (100 + 5))
      ≠ csrfHash csrfC (randBytes (fun i => i) 0 csrfSaltSize) s2 (codecW.format (100 + 5)) := by
  intro s1 s2 hne heq
  rw [csrfC_hash_eq s1, csrfC_hash_eq s2] at heq
  by_cases h1 : (csrfSaltW ++ csrfTbW ++ s1) = csrfGenInputW <;>
    by_cases h2 : (csrfSaltW ++ csrfTbW ++ s2) = csrfGenInputW
  · apply hne
    have h12 := h1.trans h2.symm
    exact List.append_cancel_left h12
  · rw [if_pos h1, if_neg h2] at heq
    have hl := congrArg List.length heq
    simp only [List.length_replicate, List.length_cons, List.length_append,
      csrfSaltW_length, csrfTbW_length] at hl
    omega
  · rw [if_neg h1, if_pos h2] at heq
    have hl := congrArg List.length heq
    simp only [List.length_replicate, List.length_cons, List.length_append,
      csrfSaltW_length, csrfTbW_length] at hl
    omega
  · rw [if_neg h1, if_neg h2] at heq
    injection heq with _ htail
    exact hne (List.append_cancel_left htail)

theorem C6_csrf_roundtrip_witness :
    CheckCSRF csrfC codecW (GenCSRFToken csrfC codecW (fun i => i) [7] 5 100) [7] 105
      = .ok () ∧
    CheckCSRF csrfC codecW (GenCSRFToken csrfC codecW (fun i => i) [7] 5 100) [7] 106
      = .error "expired" ∧
    CheckCSRF csrfC codecW (b64encode [0]) [7] 105 = .error "failed length" ∧
    CheckCSRF csrfC codecW (b64encode (randBytes (fun i => i) 0 csrfSaltSize
        ++ codecW.format (100 + 5) ++ List.replicate 64 1)) [7] 105
      = .error "failed hash" ∧
    CheckCSRF csrfC codecW (GenCSRFToken csrfC codecW (fun i => i) [7] 5 100) [8] 105
      = .error "failed hash" :=
  C6_csrf_roundtrip csrfC codecW (fun i => i) [7] [8] [0] (List.replicate 64 1)
    5 100 105 106
    (by decide) (by decide) (by decide) (by decide) (by decide)
    (by decide) (by decide) (by decide) (by decide) (by decide) (by decide)
    csrfC_hash_inj (by decide) (by decide)

end Unigma
